import Mathlib

/-!
Verification of the phase-mirror-markets analysis pipeline.

This file gives a shallow embedding, over the real numbers, of the numeric
routines in `market_coherence_analyzer.py`, `market_phase_adapter.py` and
`apps/coherence-engine/coherence_engine.py`, and proves properties of the
specification against that embedding.

Modelling conventions:
- numpy arrays become `List ℝ`; python dicts become association lists
  (`List (String × _)`) preserving insertion order;
- floating-point arithmetic is modelled by exact real arithmetic;
- python functions that can raise become `Except String _`, and code whose
  evaluation can hit an unguarded `None` is placed in the `Option` monad;
- calls into external scipy/numpy spectral primitives (`signal.hilbert`,
  `signal.coherence`, `signal.welch`, `np.fft.fft`, `interp1d`) are modelled
  as function parameters, so theorems quantify over every behaviour of those
  primitives (or assume an explicitly stated contract of the library);
- numpy NaN results are modelled with `Option ℝ` where the code inspects
  them (`np.nan_to_num`), and division by a zero length otherwise follows
  Lean's `x / 0 = 0` convention, with the caveat noted at each use site.
-/

set_option linter.unusedVariables false
set_option maxHeartbeats 1000000

open scoped Classical

noncomputable section

/-- Mean of a list of reals (`np.mean`).  On the empty list numpy returns
NaN; here the value is `0 / 0 = 0` and every theorem that depends on the
mean carries a non-emptiness hypothesis. -/
def npMean (xs : List ℝ) : ℝ := xs.sum / xs.length

/-- First difference of a list (`np.diff`). -/
def npDiff (xs : List ℝ) : List ℝ := (xs.zip xs.tail).map fun p => p.2 - p.1

/-- Elementwise natural logarithm (`np.log`). -/
def npLog (xs : List ℝ) : List ℝ := xs.map Real.log

/-- Clamp a value into `[lo, hi]` (`np.clip`). -/
def npClip (x lo hi : ℝ) : ℝ := min hi (max x lo)

/-- Minimum of a list (`np.min`); numpy raises on the empty list, which is
never reached by the guarded call sites modelled below. -/
def npMin (xs : List ℝ) : ℝ :=
  match xs with
  | [] => 0
  | x :: r => r.foldl min x

/-- Maximum of a list (`np.max`); numpy raises on the empty list, which is
never reached by the guarded call sites modelled below. -/
def npMax (xs : List ℝ) : ℝ :=
  match xs with
  | [] => 0
  | x :: r => r.foldl max x

/-- Population standard deviation (`np.std`, the default `ddof = 0`). -/
def npStd (xs : List ℝ) : ℝ :=
  Real.sqrt (npMean (xs.map fun x => (x - npMean xs) ^ 2))

/-- Subtraction of the mean, the `prices - np.mean(prices)` idiom used
before every Hilbert transform in the source. -/
def demean (xs : List ℝ) : List ℝ := xs.map fun x => x - npMean xs

/-- Log returns, the `np.diff(np.log(x))` idiom of the source. -/
def logReturns (xs : List ℝ) : List ℝ := npDiff (npLog xs)

/-- Boolean status of an `Except` value: `true` on `ok`, `false` when the
modelled python function raised. -/
def exceptOk {ε α : Type} : Except ε α → Bool
  | .ok _ => true
  | .error _ => false

/-- External primitive `scipy.signal.hilbert`: real input series to complex
analytic signal. -/
abbrev HilbertFun := List ℝ → List ℂ

/-- External primitive `scipy.signal.coherence`: two series, a sampling
frequency and `nperseg`, returning the list of (frequency, coherence)
pairs `(f, Cxy)`. -/
abbrev WelchFun := List ℝ → List ℝ → ℝ → ℕ → List (ℝ × ℝ)

/-- External primitive `scipy.signal.welch`: a series, sampling frequency
and `nperseg`, returning the power spectral density bins. -/
abbrev PsdFun := List ℝ → ℝ → ℕ → List ℝ

/-- External primitive `np.fft.fft`: real series to complex spectrum. -/
abbrev FftFun := List ℝ → List ℂ

/-! ## market_coherence_analyzer.py -/

/-- Container mirroring the `CoherenceMetrics` dataclass. -/
structure CoherenceMetrics where
  plv : ℝ
  volatility_cluster_score : ℝ
  sector_sync_score : ℝ
  frequency_coherence : List (String × ℝ)
  dominant_frequency : ℝ
  overall_score : ℝ

/-- The `self.frequency_bands` dict set in `MarketCoherenceAnalyzer.__init__`,
in insertion order: name, lower edge, upper edge. -/
def frequency_bands : List (String × ℝ × ℝ) :=
  [("ultra_low", 0.0, 0.01),
   ("low", 0.01, 0.05),
   ("medium", 0.05, 0.15),
   ("high", 0.15, 0.5)]

/-- Embedding of `MarketCoherenceAnalyzer.calculate_plv`.  Raises when the
two phase arrays differ in length, otherwise returns
`|mean(exp(i * (phase1 - phase2)))|`. -/
def calculate_plv (phase1 phase2 : List ℝ) : Except String ℝ :=
  if phase1.length ≠ phase2.length then
    .error "Phase signals must have the same length"
  else
    let phase_diff := (phase1.zip phase2).map fun p => p.1 - p.2
    .ok (Complex.abs
      ((phase_diff.map fun d =>
          Complex.exp (Complex.I * Complex.ofReal d)).sum
        / (phase_diff.length : ℂ)))

/-- Pearson correlation coefficient `np.corrcoef(xs, ys)[0, 1]` of two
equal-length samples; `none` models the NaN numpy produces when either
sample has zero variance (the `1/(n-1)` normalisations cancel, so the
covariance/std form below is the exact value numpy computes). -/
def corrcoef01 (xs ys : List ℝ) : Option ℝ :=
  let dx := xs.map fun x => x - npMean xs
  let dy := ys.map fun y => y - npMean ys
  let sxx := (dx.map fun x => x ^ 2).sum
  let syy := (dy.map fun y => y ^ 2).sum
  if sxx = 0 ∨ syy = 0 then none
  else some (((dx.zip dy).map fun p => p.1 * p.2).sum / Real.sqrt (sxx * syy))

/-- The `np.nan_to_num(·, nan=0.0, posinf=0.0, neginf=0.0)` coercion applied
to a possibly-NaN correlation. -/
def nanToNum (x : Option ℝ) : ℝ := x.getD 0

/-- Embedding of `MarketCoherenceAnalyzer.detect_volatility_clustering`,
including the rolling-volatility array the source computes and then never
reads. -/
def detect_volatility_clustering (returns : List ℝ) (window : ℕ) : ℝ :=
  if returns.length < window * 2 then 0.0
  else
    let squared_returns := returns.map fun r => r ^ 2
    let rolling_vol := (List.range returns.length).map fun i =>
      Real.sqrt (npMean ((squared_returns.drop (i - window)).take
        (i + 1 - (i - window))))
    let autocorr : ℝ :=
      if squared_returns.length > 1 then
        nanToNum (corrcoef01 squared_returns.dropLast squared_returns.tail)
      else 0.0
    (autocorr + 1) / 2

/-- Reference function for volatility clustering, written from the spec's
words: return `0.0` below the `2·window` floor, otherwise rescale the
NaN-coerced lag-1 autocorrelation of the squared returns — with no
rolling-volatility computation at all. -/
def volatilityClusteringSpec (returns : List ℝ) (window : ℕ) : ℝ :=
  if returns.length < window * 2 then 0.0
  else
    let squared_returns := returns.map fun r => r ^ 2
    (nanToNum (corrcoef01 squared_returns.dropLast squared_returns.tail) + 1) / 2

/-- All unordered pairs `(xs[i], xs[j])` with `i < j`, the double loop of
`calculate_sector_synchronization`. -/
def upperPairs {α : Type} : List α → List (α × α)
  | [] => []
  | x :: xs => (xs.map fun y => (x, y)) ++ upperPairs xs

/-- Embedding of `MarketCoherenceAnalyzer.calculate_sector_synchronization`.
A raised `ValueError` from an inner `calculate_plv` call propagates. -/
def calculate_sector_synchronization (hilbert : HilbertFun)
    (sector_prices : List (String × List ℝ)) : Except String ℝ :=
  if sector_prices.length < 2 then .ok 0.0
  else do
    let phases := (sector_prices.filter fun p => p.2.length > 0).map
      fun p => (hilbert p.2).map Complex.arg
    let plv_values ← (upperPairs phases).mapM fun pr => calculate_plv pr.1 pr.2
    if plv_values.isEmpty then pure 0.0 else pure (npMean plv_values)

/-- Embedding of `MarketCoherenceAnalyzer.calculate_frequency_band_coherence`. -/
def calculate_frequency_band_coherence (welch : WelchFun) (sampling_rate : ℝ)
    (signal1 signal2 : List ℝ) : Except String (List (String × ℝ)) :=
  if signal1.length ≠ signal2.length then
    .error "Signals must have the same length"
  else if signal1.length < 4 then
    .ok (frequency_bands.map fun b => (b.1, 0.0))
  else
    let nperseg := min (signal1.length / 2) 256
    let fcxy := welch signal1 signal2 sampling_rate nperseg
    .ok (frequency_bands.map fun b =>
      let sel := (fcxy.filter fun p => b.2.1 ≤ p.1 ∧ p.1 ≤ b.2.2).map
        fun p => p.2
      (b.1, if sel.isEmpty then 0.0 else npMean sel))

/-- Index of the first maximum of a list (`np.argmax`), starting the scan
with the given index and current best. -/
def argmaxAux (i best : ℕ) (bestVal : ℝ) : List ℝ → ℕ
  | [] => best
  | x :: xs =>
    if x > bestVal then argmaxAux (i + 1) i x xs
    else argmaxAux (i + 1) best bestVal xs

/-- Index of the first maximum of a list (`np.argmax`); numpy raises on an
empty list, which the guarded call site below never reaches. -/
def argmax : List ℝ → ℕ
  | [] => 0
  | x :: xs => argmaxAux 1 0 x xs

/-- Embedding of `MarketCoherenceAnalyzer.detect_dominant_frequency`.  The
first `n / 2` entries of `np.fft.fftfreq(n, d=1/fs)` are `k · fs / n`. -/
def detect_dominant_frequency (fft : FftFun) (sampling_rate : ℝ)
    (time_series : List ℝ) : ℝ :=
  if time_series.length < 2 then 0.0
  else
    let n := time_series.length
    let fft_mag := ((fft time_series).take (n / 2)).map Complex.abs
    let freqs := (List.range (n / 2)).map fun k => k * sampling_rate / n
    if fft_mag.length > 1 then
      freqs.getD (argmax (fft_mag.drop 1) + 1) 0
    else 0.0

/-- Embedding of `MarketCoherenceAnalyzer.calculate_overall_score`.  The
dict of band coherences enters as its list of values. -/
def calculate_overall_score (plv volatility_cluster sector_sync : ℝ)
    (freq_coherence : List ℝ) : ℝ :=
  let avg_freq_coherence := npMean freq_coherence
  let overall :=
    0.3 * plv + 0.2 * (1 - volatility_cluster) + 0.2 * sector_sync +
      0.3 * avg_freq_coherence
  npClip overall 0 1

/-- Embedding of `MarketCoherenceAnalyzer.analyze`.  `sector_data = none`
models the python default `None` (an empty dict behaves identically through
the `if sector_data and len(sector_data) > 0` test). -/
def analyze (hilbert : HilbertFun) (welch : WelchFun) (fft : FftFun)
    (sampling_rate : ℝ) (primary_signal : List ℝ)
    (reference_signal : Option (List ℝ))
    (sector_data : Option (List (String × List ℝ))) :
    Except String CoherenceMetrics := do
  let reference := reference_signal.getD primary_signal
  let returns :=
    if primary_signal.length > 1 then
      let min_val := npMin primary_signal
      let safe_signal :=
        if min_val ≤ 0 then primary_signal.map fun x => x + (|min_val| + 1.0)
        else primary_signal
      logReturns safe_signal
    else [0.0]
  let normalized_primary := demean primary_signal
  let normalized_reference := demean reference
  let phase1 := (hilbert normalized_primary).map Complex.arg
  let phase2 := (hilbert normalized_reference).map Complex.arg
  let plv ← calculate_plv phase1 phase2
  let volatility_score := detect_volatility_clustering returns 20
  let sector_sync ←
    match sector_data with
    | some sd =>
        if sd.length > 0 then calculate_sector_synchronization hilbert sd
        else pure 0.0
    | none => pure 0.0
  let freq_coherence ←
    calculate_frequency_band_coherence welch sampling_rate primary_signal
      reference
  let dominant_freq := detect_dominant_frequency fft sampling_rate
    primary_signal
  let overall := calculate_overall_score plv volatility_score sector_sync
    (freq_coherence.map fun q => q.2)
  pure { plv := plv
         volatility_cluster_score := volatility_score
         sector_sync_score := sector_sync
         frequency_coherence := freq_coherence
         dominant_frequency := dominant_freq
         overall_score := overall }

/-! ## market_phase_adapter.py -/

/-- Container mirroring the `PhaseSpaceRepresentation` dataclass. -/
structure PhaseSpaceRepresentation where
  phases : List ℝ
  amplitudes : List ℝ
  frequencies : List ℝ
  mean_price : ℝ
  std_price : ℝ

/-- Container mirroring the `MarketSignal` dataclass. -/
structure MarketSignal where
  prices : List ℝ
  volumes : Option (List ℝ) := none
  timestamps : Option (List ℝ) := none

/-- Correction term added to one step of `np.unwrap` (default `discont = π`,
`period = 2π`): the step `dd` is remapped into `(-π, π]` and the remap is
only applied where `|dd| ≥ π`. -/
def unwrapCorrection (dd : ℝ) : ℝ :=
  let ddmod := (dd + Real.pi) -
    2 * Real.pi * ⌊(dd + Real.pi) / (2 * Real.pi)⌋ - Real.pi
  let ddmod := if ddmod = -Real.pi ∧ dd > 0 then Real.pi else ddmod
  if |dd| < Real.pi then 0 else ddmod - dd

/-- Tail recursion of `np.unwrap`: `prev` is the previous raw sample and `u`
the previous unwrapped sample. -/
def unwrapGo (prev u : ℝ) : List ℝ → List ℝ
  | [] => []
  | p :: ps =>
    let u' := u + (p - prev) + unwrapCorrection (p - prev)
    u' :: unwrapGo p u' ps

/-- Phase unwrapping, `np.unwrap` with its default arguments. -/
def npUnwrap : List ℝ → List ℝ
  | [] => []
  | x :: xs => x :: unwrapGo x x xs

/-- Second-order-accurate discrete gradient, `np.gradient` with unit
spacing: one-sided differences at the ends, centred differences inside.
Numpy raises on fewer than two samples; the guarded call sites below only
reach this with length at least two. -/
def npGradient (xs : List ℝ) : List ℝ :=
  (List.range xs.length).map fun i =>
    if i = 0 then xs.getD 1 0 - xs.getD 0 0
    else if i = xs.length - 1 then
      xs.getD (xs.length - 1) 0 - xs.getD (xs.length - 2) 0
    else (xs.getD (i + 1) 0 - xs.getD (i - 1) 0) / 2

/-- Embedding of `MarketPhaseAdapter.price_to_phase`. -/
def price_to_phase (hilbert : HilbertFun) (prices : List ℝ) : List ℝ :=
  if prices.length < 2 then [0.0]
  else (hilbert (demean prices)).map Complex.arg

/-- Embedding of `MarketPhaseAdapter.price_to_amplitude`. -/
def price_to_amplitude (hilbert : HilbertFun) (prices : List ℝ) : List ℝ :=
  if prices.length < 2 then [if prices.length > 0 then npStd prices else 0.0]
  else (hilbert (demean prices)).map Complex.abs

/-- Embedding of `MarketPhaseAdapter.price_to_frequency`. -/
def price_to_frequency (hilbert : HilbertFun) (sampling_rate : ℝ)
    (prices : List ℝ) : List ℝ :=
  if prices.length < 2 then [0.0]
  else
    let phases := price_to_phase hilbert prices
    let unwrapped_phase := npUnwrap phases
    let dt := 1.0 / sampling_rate
    (npGradient unwrapped_phase).map fun g => g / (2 * Real.pi * dt)

/-- Embedding of `MarketPhaseAdapter.to_oscillator_representation`.  The
volume modulation `amplitudes * (1 + vol_normalized)` is elementwise on
arrays whose lengths numpy broadcasting makes equal at every reachable
call. -/
def to_oscillator_representation (hilbert : HilbertFun) (sampling_rate : ℝ)
    (prices : List ℝ) (volumes : Option (List ℝ)) :
    PhaseSpaceRepresentation :=
  let phases := price_to_phase hilbert prices
  let amplitudes := price_to_amplitude hilbert prices
  let frequencies := price_to_frequency hilbert sampling_rate prices
  let amplitudes :=
    match volumes with
    | some vs =>
        if vs.length = prices.length then
          let vol_normalized := vs.map fun v =>
            (v - npMin vs) / (npMax vs - npMin vs + 1e-10)
          List.zipWith (fun a v => a * (1 + v)) amplitudes vol_normalized
        else amplitudes
    | none => amplitudes
  { phases := phases
    amplitudes := amplitudes
    frequencies := frequencies
    mean_price := npMean prices
    std_price := npStd prices }

/-- Embedding of `MarketPhaseAdapter.from_oscillator_representation`.  The
cubic `interp1d` resampling branch is an external primitive `interp`; it is
only taken when the requested number of points differs from the stored
length. -/
def from_oscillator_representation (interp : List ℝ → ℕ → List ℝ)
    (phase_repr : PhaseSpaceRepresentation) (num_points : Option ℕ) :
    MarketSignal :=
  let numPoints := num_points.getD phase_repr.phases.length
  let reconstructed :=
    List.zipWith (fun a p => a * Real.cos p) phase_repr.amplitudes
      phase_repr.phases
  let reconstructed := reconstructed.map fun r =>
    r * phase_repr.std_price + phase_repr.mean_price
  let reconstructed :=
    if reconstructed.length ≠ numPoints then interp reconstructed numPoints
    else reconstructed
  { prices := reconstructed }

/-- Embedding of `MarketPhaseAdapter.phase_to_price`. -/
def phase_to_price (phases amplitudes : List ℝ) (mean_price std_price : ℝ) :
    Except String (List ℝ) :=
  if phases.length ≠ amplitudes.length then
    .error "Phases and amplitudes must have the same length"
  else
    let signal_normalized :=
      List.zipWith (fun a p => a * Real.cos p) amplitudes phases
    .ok (signal_normalized.map fun s => s * std_price + mean_price)

/-! ## apps/coherence-engine/coherence_engine.py -/

/-- Per-symbol market data, the `(close, volume)` columns of the dataframe
the engine's data source yields. -/
structure DataFrame where
  close : List ℝ
  volume : List ℝ

/-- The module-level `SECTORS` mapping, in insertion order. -/
def SECTORS : List (String × List String) :=
  [("Macro", ["SPY", "QQQ", "DIA"]),
   ("Crypto", ["BTC-USD", "ETH-USD", "SOL-USD"]),
   ("Tech", ["AAPL", "MSFT", "NVDA", "GOOGL"]),
   ("Finance", ["JPM", "GS", "BAC"]),
   ("Energy", ["XOM", "CVX", "SLB"])]

/-- Embedding of the engine's `calculate_coherence`: truncate to the
shorter length, return `0.0` below 32 samples, otherwise the mean Welch
coherence of the two log-return series. -/
def calculate_coherence (welch : WelchFun) (s1 s2 : List ℝ) : ℝ :=
  let min_len := min s1.length s2.length
  if min_len < 32 then 0.0
  else
    let r1 := logReturns (s1.take min_len)
    let r2 := logReturns (s2.take min_len)
    let fcxy := welch r1 r2 1.0 (min r1.length 64)
    npMean (fcxy.map fun p => p.2)

/-- Embedding of the engine's `calculate_resonance_stability`: ratio of the
peak PSD bin of the log returns to the total power. -/
def calculate_resonance_stability (welchPsd : PsdFun) (series : List ℝ) :
    ℝ :=
  let returns := logReturns series
  let psd := welchPsd returns 1.0 (min returns.length 64)
  let peak_power := npMax psd
  let total_power := psd.sum
  if total_power > 0 then peak_power / total_power else 0.0

/-- Embedding of the engine's `calculate_hemispheric_coupling`. -/
def calculate_hemispheric_coupling (welch : WelchFun)
    (buy_side sell_side : List ℝ) : ℝ :=
  calculate_coherence welch buy_side sell_side

/-- The nested report built by `analyze_fractal_coherence` (the timestamp
string is outside the numeric model). -/
structure FractalReport where
  tblMacro : List (String × ℝ)
  tblMeso : List (String × ℝ)
  tblMicro : List (String × List (String × ℝ))
  faraday_resonance : List (String × ℝ)
  hemispheric_coupling : ℝ
  emotional_intelligence : ℝ

/-- Elementwise mean across a list of equal-length series,
`np.mean(signals, axis=0)` (ragged input raises in numpy and is junk
here). -/
def elementwiseMean (ls : List (List ℝ)) : List ℝ :=
  match ls with
  | [] => []
  | l :: _ =>
      (List.range l.length).map fun i => npMean (ls.map fun s => s.getD i 0)

/-- Embedding of the engine's `analyze_fractal_coherence` over an abstract
data source `fetch` honouring the documented contract (a dataframe, or an
absence signal).  Evaluation runs in `Option`: a bind on `fetch sym`
models the python subscript `data[sym][...]`, which raises `TypeError` and
aborts the whole report when the entry is `None`; `none` as the result
therefore models that abort.  The `if sector_signals` guard of the source
is the `isEmpty` test. -/
def analyze_fractal_coherence (welch : WelchFun) (welchPsd : PsdFun)
    (fetch : String → Option DataFrame) : Option FractalReport := do
  let data := fetch
  let spyDf ← data "SPY"
  let marketRef := spyDf.close
  let tblMacro ←
    (((List.lookup "Macro" SECTORS).getD []).filter fun s => s ≠ "SPY").mapM
      fun sym => do
        let df ← data sym
        pure ("SPY_vs_" ++ sym, calculate_coherence welch marketRef df.close)
  let sectorOut ← (SECTORS.filter fun s => s.1 ≠ "Macro").mapM fun sec => do
    let sector := sec.1
    let symbols := sec.2
    let sector_signals := symbols.filterMap fun sym =>
      (data sym).map fun df => df.close
    if sector_signals.isEmpty then
      pure (([] : List (String × ℝ)),
            ([] : List (String × List (String × ℝ))),
            ([] : List (String × ℝ)))
    else do
      let sector_avg := elementwiseMean sector_signals
      let mesoEntry :=
        (sector ++ "_vs_Market", calculate_coherence welch sector_avg
          marketRef)
      let microEntries ← symbols.mapM fun sym => do
        let stock_data ← data sym
        pure ((sym, calculate_coherence welch stock_data.close
                stock_data.volume),
              (sym, calculate_resonance_stability welchPsd
                stock_data.close))
      pure ([mesoEntry],
            [(sector, microEntries.map fun e => e.1)],
            microEntries.map fun e => e.2)
  let tblMeso := (sectorOut.map fun t => t.1).flatten
  let tblMicro := (sectorOut.map fun t => t.2.1).flatten
  let faraday := (sectorOut.map fun t => t.2.2).flatten
  let qqqDf ← data "QQQ"
  let hemispheric :=
    calculate_hemispheric_coupling welch spyDf.close qqqDf.close
  let all_micro := ((tblMicro.map fun t => t.2).flatten).map fun e => e.2
  let ei := if all_micro.isEmpty then 0.0 else npMean all_micro
  pure { tblMacro := tblMacro
         tblMeso := tblMeso
         tblMicro := tblMicro
         faraday_resonance := faraday
         hemispheric_coupling := hemispheric
         emotional_intelligence := ei }

/-! ## Concrete instantiations of the external primitives, used by closed
witnesses and counterexamples. -/

/-- Concrete stand-in for `scipy.signal.hilbert` satisfying the
analytic-signal contract `Re(hilbert x) = x` (with imaginary part 0). -/
def hilbertMock : HilbertFun := fun x => x.map Complex.ofReal

/-- Concrete stand-in for the cubic resampling primitive. -/
def interpMock : List ℝ → ℕ → List ℝ := fun l _ => l

/-- Concrete stand-in for `scipy.signal.coherence` returning no bins. -/
def welchMock : WelchFun := fun _ _ _ _ => []

/-- Concrete stand-in for `scipy.signal.welch` returning no bins. -/
def psdMock : PsdFun := fun _ _ _ => []

/-- Concrete stand-in for `np.fft.fft`. -/
def fftMock : FftFun := fun x => x.map Complex.ofReal

/-- Data source honouring the documented contract that returns an absence
signal for AAPL and a 128-sample dataframe of equal-length close and
volume series for every other symbol. -/
def fetchMissingAAPL : String → Option DataFrame := fun sym =>
  if sym = "AAPL" then none
  else some ⟨List.replicate 128 1, List.replicate 128 1⟩

/-! ## Helper lemmas -/

/-- Mean of a non-empty list of values in `[0, 1]` stays in `[0, 1]`. -/
lemma npMean_mem_unit {l : List ℝ} (h : l ≠ [])
    (hx : ∀ x ∈ l, 0 ≤ x ∧ x ≤ 1) : 0 ≤ npMean l ∧ npMean l ≤ 1 := by
  have hlen : 0 < (l.length : ℝ) := by
    exact_mod_cast List.length_pos.mpr h
  refine ⟨div_nonneg (List.sum_nonneg fun x hxl => (hx x hxl).1) hlen.le, ?_⟩
  rw [npMean, div_le_one hlen]
  calc l.sum ≤ l.length • (1 : ℝ) :=
        List.sum_le_card_nsmul l 1 fun x hxl => (hx x hxl).2
    _ = l.length := by simp

/-- Zipping a list with itself and subtracting componentwise gives zeros. -/
lemma zip_self_sub (p : List ℝ) :
    (p.zip p).map (fun q => q.1 - q.2) = List.replicate p.length 0 := by
  induction p with
  | nil => simp
  | cons x xs ih => simp [List.replicate_succ, ih]

/-- PLV of a non-empty phase list against itself is exactly one. -/
lemma plv_self (p : List ℝ) (hp : p ≠ []) :
    calculate_plv p p = Except.ok 1 := by
  have hn : (p.length : ℂ) ≠ 0 := by
    exact_mod_cast Nat.cast_ne_zero.mpr (List.length_pos.mpr hp).ne'
  unfold calculate_plv
  rw [if_neg (by simp), zip_self_sub]
  simp only [List.map_replicate, Complex.ofReal_zero, mul_zero,
    Complex.exp_zero, List.sum_replicate, List.length_replicate,
    nsmul_eq_mul, mul_one]
  rw [div_self hn]
  simp

/-- Banded coherence succeeds on equal-length inputs. -/
lemma fbc_ok (welch : WelchFun) (fs : ℝ) (s1 s2 : List ℝ)
    (h : s1.length = s2.length) :
    ∃ l, calculate_frequency_band_coherence welch fs s1 s2 = Except.ok l := by
  unfold calculate_frequency_band_coherence
  rw [if_neg (not_ne_iff.mpr h)]
  split_ifs <;> exact ⟨_, rfl⟩

/-! ## Claim theorems -/

/-- C1: `calculate_overall_score` returns
`0.3·plv + 0.2·(1 − volatility_cluster) + 0.2·sector_sync + 0.3·mean(freq_coherence)`
clamped into `[0, 1]`, and in particular the result always lies in `[0, 1]`
even when the component inputs are outside their normal ranges. -/
theorem overall_score_formula_and_clamped
    (plv volatility_cluster sector_sync : ℝ) (freq_coherence : List ℝ)
    (h : freq_coherence ≠ []) :
    calculate_overall_score plv volatility_cluster sector_sync
        freq_coherence =
      min 1 (max (0.3 * plv + 0.2 * (1 - volatility_cluster) +
        0.2 * sector_sync +
        0.3 * (freq_coherence.sum / freq_coherence.length)) 0) ∧
    0 ≤ calculate_overall_score plv volatility_cluster sector_sync
        freq_coherence ∧
    calculate_overall_score plv volatility_cluster sector_sync
        freq_coherence ≤ 1 := by
  refine ⟨rfl, ?_, ?_⟩
  · exact le_min (by norm_num) (le_max_right _ 0)
  · exact min_le_left _ _

/-- Witness for C1 at a PLV slightly above one. -/
theorem overall_score_formula_and_clamped_witness :
    0 ≤ calculate_overall_score 1.05 0 0.5 [1, 1] ∧
    calculate_overall_score 1.05 0 0.5 [1, 1] ≤ 1 :=
  ⟨(overall_score_formula_and_clamped 1.05 0 0.5 [1, 1] (by simp)).2.1,
   (overall_score_formula_and_clamped 1.05 0 0.5 [1, 1] (by simp)).2.2⟩

/-- C3: the engine's `calculate_coherence` returns exactly `0.0` whenever
the shorter input has fewer than 32 samples, for every behaviour of the
spectral primitive — so the series values are never touched. -/
theorem coherence_below_32_returns_zero (welch : WelchFun) (s1 s2 : List ℝ)
    (h : min s1.length s2.length < 32) :
    calculate_coherence welch s1 s2 = 0 := by
  unfold calculate_coherence
  rw [if_pos h]
  norm_num

/-- Witness for C3. -/
theorem coherence_below_32_returns_zero_witness :
    calculate_coherence welchMock [1] [] = 0 :=
  coherence_below_32_returns_zero welchMock [1] [] (by decide)

/-- C4: `calculate_plv` is invariant under adding the same constant offset
to both equal-length phase arrays, and the PLV of a non-empty phase array
against itself is exactly `1.0`. -/
theorem plv_offset_invariant_and_self_one (p1 p2 p : List ℝ) (c : ℝ)
    (h : p1.length = p2.length) (hp : p ≠ []) :
    calculate_plv (p1.map fun x => x + c) (p2.map fun x => x + c) =
      calculate_plv p1 p2 ∧
    calculate_plv p p = Except.ok 1 := by
  refine ⟨?_, plv_self p hp⟩
  have hzip : ((p1.map fun x => x + c).zip (p2.map fun x => x + c)).map
      (fun q => q.1 - q.2) = (p1.zip p2).map fun q => q.1 - q.2 := by
    rw [List.zip_map, List.map_map]
    exact List.map_congr_left fun a _ => by simp [Prod.map]
  simp only [calculate_plv, List.length_map, hzip]

/-- Witness for C4. -/
theorem plv_offset_invariant_and_self_one_witness :
    calculate_plv ([0].map fun x => x + 1) ([0].map fun x => x + 1) =
      calculate_plv [0] [0] ∧
    calculate_plv [0] [0] = Except.ok 1 :=
  plv_offset_invariant_and_self_one [0] [0] [0] 1 rfl (by simp)

/-- C5: `calculate_plv`, `calculate_frequency_band_coherence` and
`phase_to_price` each raise a `ValueError` exactly when their two array
arguments differ in length, and never truncate. -/
theorem length_mismatch_raises_iff (welch : WelchFun) (fs : ℝ)
    (p1 p2 s1 s2 ph am : List ℝ) (mp sp : ℝ) :
    (exceptOk (calculate_plv p1 p2) = false ↔ p1.length ≠ p2.length) ∧
    (exceptOk (calculate_frequency_band_coherence welch fs s1 s2) = false ↔
      s1.length ≠ s2.length) ∧
    (exceptOk (phase_to_price ph am mp sp) = false ↔
      ph.length ≠ am.length) := by
  refine ⟨?_, ?_, ?_⟩
  · by_cases h : p1.length = p2.length <;>
      simp [calculate_plv, h, exceptOk]
  · by_cases h : s1.length = s2.length
    · rcases fbc_ok welch fs s1 s2 h with ⟨l, hl⟩
      simp [hl, exceptOk, h]
    · simp [calculate_frequency_band_coherence, h, exceptOk]
  · by_cases h : ph.length = am.length <;>
      simp [phase_to_price, h, exceptOk]

/-- Witness for C5 (no hypotheses; closed instantiation). -/
theorem length_mismatch_raises_iff_witness :
    (exceptOk (calculate_plv [0] []) = false ↔
      ([(0 : ℝ)].length ≠ ([] : List ℝ).length)) ∧
    (exceptOk (calculate_frequency_band_coherence welchMock 1 [] []) =
      false ↔ (([] : List ℝ).length ≠ ([] : List ℝ).length)) ∧
    (exceptOk (phase_to_price [] [] 0 1) = false ↔
      (([] : List ℝ).length ≠ ([] : List ℝ).length)) :=
  length_mismatch_raises_iff welchMock 1 [0] [] [] [] [] [] 0 1

/-- C7: `detect_volatility_clustering` is observationally equal to the
spec's reference function that omits the rolling-volatility array
entirely. -/
theorem volatility_clustering_refines_spec (returns : List ℝ)
    (window : ℕ) :
    detect_volatility_clustering returns window =
      volatilityClusteringSpec returns window := by
  simp only [detect_volatility_clustering, volatilityClusteringSpec]
  by_cases hlen : returns.length < window * 2
  · rw [if_pos hlen, if_pos hlen]
  · rw [if_neg hlen, if_neg hlen]
    by_cases h1 : (returns.map fun r => r ^ 2).length > 1
    · rw [if_pos h1]
    · rw [if_neg h1]
      have hd : (returns.map fun r => r ^ 2).dropLast = [] := by
        rcases hl : returns.map fun r => r ^ 2 with _ | ⟨a, _ | ⟨b, t⟩⟩
        · rfl
        · rfl
        · exfalso; apply h1; rw [hl]; simp
      have hc : corrcoef01 (returns.map fun r => r ^ 2).dropLast
          (returns.map fun r => r ^ 2).tail = none := by
        rw [hd]
        unfold corrcoef01
        rw [if_pos (Or.inl (by simp))]
      rw [hc]
      norm_num [nanToNum]

/-- C6: on every pair of equal-length signals — including degenerate ones
shorter than 4 samples — the banded-coherence dict has exactly the
configured band names as keys, each value a real in `[0, 1]`, under the
scipy contract that `signal.coherence` bins lie in `[0, 1]`. -/
theorem band_coherence_keys_and_unit_range (welch : WelchFun) (fs : ℝ)
    (s1 s2 : List ℝ)
    (hw : ∀ r1 r2 f n p, p ∈ welch r1 r2 f n → 0 ≤ p.2 ∧ p.2 ≤ 1)
    (h : s1.length = s2.length) :
    ∃ l, calculate_frequency_band_coherence welch fs s1 s2 = Except.ok l ∧
      l.map Prod.fst = ["ultra_low", "low", "medium", "high"] ∧
      ∀ q ∈ l, 0 ≤ q.2 ∧ q.2 ≤ 1 := by
  unfold calculate_frequency_band_coherence
  rw [if_neg (not_ne_iff.mpr h)]
  by_cases h4 : s1.length < 4
  · rw [if_pos h4]
    refine ⟨_, rfl, by simp [frequency_bands], ?_⟩
    intro q hq
    simp only [frequency_bands, List.map_cons, List.map_nil,
      List.mem_cons, List.not_mem_nil, or_false] at hq
    rcases hq with rfl | rfl | rfl | rfl <;> norm_num
  · rw [if_neg h4]
    refine ⟨_, rfl, by simp [frequency_bands], ?_⟩
    intro q hq
    simp only [List.mem_map] at hq
    rcases hq with ⟨b, hb, rfl⟩
    dsimp only
    split_ifs with he
    · norm_num
    · apply npMean_mem_unit
      · intro hnil
        exact he (by rw [hnil]; rfl)
      · intro x hx
        simp only [List.mem_map, List.mem_filter] at hx
        rcases hx with ⟨pp, ⟨hpmem, _⟩, rfl⟩
        exact hw _ _ _ _ pp hpmem

/-- Witness for C6. -/
theorem band_coherence_keys_and_unit_range_witness :
    ∃ l, calculate_frequency_band_coherence welchMock 1 [] [] =
        Except.ok l ∧
      l.map Prod.fst = ["ultra_low", "low", "medium", "high"] ∧
      ∀ q ∈ l, 0 ≤ q.2 ∧ q.2 ≤ 1 :=
  band_coherence_keys_and_unit_range welchMock 1 [] []
    (fun r1 r2 f n p hp => by simp [welchMock] at hp) rfl

/-- C2 (code bug): a data source that honours the documented contract but
yields the absence signal for AAPL makes `analyze_fractal_coherence` abort
(the micro loop subscripts the absent entry unguarded), instead of
omitting that symbol's entries as the spec requires. -/
theorem missing_symbol_aborts_report :
    fetchMissingAAPL "AAPL" = none ∧
    analyze_fractal_coherence welchMock psdMock fetchMissingAAPL = none :=
  ⟨rfl, rfl⟩

/-! ## Length lemmas for the phase adapter -/

/-- Unwrapping step preserves length. -/
lemma unwrapGo_length (l : List ℝ) :
    ∀ prev u, (unwrapGo prev u l).length = l.length := by
  induction l with
  | nil => intro prev u; rfl
  | cons p ps ih => intro prev u; simp [unwrapGo, ih]

/-- Phase unwrapping preserves length. -/
lemma npUnwrap_length (l : List ℝ) : (npUnwrap l).length = l.length := by
  cases l with
  | nil => rfl
  | cons x xs => simp [npUnwrap, unwrapGo_length]

/-- The discrete gradient preserves length. -/
lemma npGradient_length (l : List ℝ) : (npGradient l).length = l.length := by
  simp [npGradient]

/-- Phase extraction yields as many phases as non-empty input prices, for
any length-preserving Hilbert primitive. -/
lemma price_to_phase_length (hf : HilbertFun)
    (hlen : ∀ x, (hf x).length = x.length) (prices : List ℝ)
    (hne : prices ≠ []) :
    (price_to_phase hf prices).length = prices.length := by
  have h1 : 0 < prices.length := List.length_pos.mpr hne
  unfold price_to_phase
  split_ifs with h2
  · have : prices.length = 1 := by omega
    simp [this]
  · simp [hlen, demean]

/-- Amplitude extraction yields as many amplitudes as non-empty input
prices. -/
lemma price_to_amplitude_length (hf : HilbertFun)
    (hlen : ∀ x, (hf x).length = x.length) (prices : List ℝ)
    (hne : prices ≠ []) :
    (price_to_amplitude hf prices).length = prices.length := by
  have h1 : 0 < prices.length := List.length_pos.mpr hne
  unfold price_to_amplitude
  split_ifs with h2
  · have : prices.length = 1 := by omega
    simp [this]
  · simp [hlen, demean]

/-- Instantaneous-frequency extraction yields as many samples as non-empty
input prices. -/
lemma price_to_frequency_length (hf : HilbertFun)
    (hlen : ∀ x, (hf x).length = x.length) (fs : ℝ) (prices : List ℝ)
    (hne : prices ≠ []) :
    (price_to_frequency hf fs prices).length = prices.length := by
  have h1 : 0 < prices.length := List.length_pos.mpr hne
  unfold price_to_frequency
  split_ifs with h2
  · have : prices.length = 1 := by omega
    simp [this]
  · simp [npGradient_length, npUnwrap_length,
      price_to_phase_length hf hlen prices hne]

/-- Projection of the forward transform: phases. -/
lemma to_osc_phases (hf : HilbertFun) (fs : ℝ) (prices : List ℝ)
    (volumes : Option (List ℝ)) :
    (to_oscillator_representation hf fs prices volumes).phases =
      price_to_phase hf prices := by
  cases volumes <;> rfl

/-- Projection of the forward transform: frequencies. -/
lemma to_osc_frequencies (hf : HilbertFun) (fs : ℝ) (prices : List ℝ)
    (volumes : Option (List ℝ)) :
    (to_oscillator_representation hf fs prices volumes).frequencies =
      price_to_frequency hf fs prices := by
  cases volumes <;> rfl

/-- Projection of the forward transform: amplitudes without volumes. -/
lemma to_osc_amplitudes_none (hf : HilbertFun) (fs : ℝ) (prices : List ℝ) :
    (to_oscillator_representation hf fs prices none).amplitudes =
      price_to_amplitude hf prices := rfl

/-- Projection of the forward transform: amplitudes under volume
modulation. -/
lemma to_osc_amplitudes_some (hf : HilbertFun) (fs : ℝ)
    (prices vs : List ℝ) :
    (to_oscillator_representation hf fs prices (some vs)).amplitudes =
      if vs.length = prices.length then
        List.zipWith (fun a v => a * (1 + v)) (price_to_amplitude hf prices)
          (vs.map fun v => (v - npMin vs) / (npMax vs - npMin vs + 1e-10))
      else price_to_amplitude hf prices := rfl

/-- C8 (amended): for every NON-EMPTY prices array and optional volumes
array, the returned representation has phases, amplitudes and frequencies
of one common length equal to `len(prices)` (the original claim fails on
the empty array, where all three have length one). -/
theorem phase_space_parallel_lengths (hf : HilbertFun)
    (hlen : ∀ x, (hf x).length = x.length) (fs : ℝ) (prices : List ℝ)
    (volumes : Option (List ℝ)) (hne : prices ≠ []) :
    (to_oscillator_representation hf fs prices volumes).phases.length =
      prices.length ∧
    (to_oscillator_representation hf fs prices volumes).amplitudes.length =
      prices.length ∧
    (to_oscillator_representation hf fs prices
      volumes).frequencies.length = prices.length := by
  refine ⟨by rw [to_osc_phases]; exact price_to_phase_length hf hlen prices hne,
    ?_, by rw [to_osc_frequencies]
           exact price_to_frequency_length hf hlen fs prices hne⟩
  cases volumes with
  | none =>
      rw [to_osc_amplitudes_none]
      exact price_to_amplitude_length hf hlen prices hne
  | some vs =>
      rw [to_osc_amplitudes_some]
      split_ifs with hv
      · rw [List.length_zipWith,
          price_to_amplitude_length hf hlen prices hne, List.length_map, hv,
          min_self]
      · exact price_to_amplitude_length hf hlen prices hne

/-- Witness for C8 (amended). -/
theorem phase_space_parallel_lengths_witness :
    (to_oscillator_representation hilbertMock 1 [1] none).phases.length =
      [(1 : ℝ)].length ∧
    (to_oscillator_representation hilbertMock 1 [1]
      none).amplitudes.length = [(1 : ℝ)].length ∧
    (to_oscillator_representation hilbertMock 1 [1]
      none).frequencies.length = [(1 : ℝ)].length :=
  phase_space_parallel_lengths hilbertMock
    (fun x => by simp [hilbertMock]) 1 [1] none (by simp)

/-- C8 counterexample: on the EMPTY prices array the phase sequence has
length one while the input has length zero, so the claim as stated fails. -/
theorem phase_space_empty_counterexample :
    (to_oscillator_representation hilbertMock 1 [] none).phases.length = 1 ∧
    ([] : List ℝ).length = 0 :=
  ⟨rfl, rfl⟩

/-! ## Moment lemmas for the round trip -/

/-- Zipping two maps over the same list is a single map. -/
lemma zipWith_map_same {α β γ δ : Type} (f : β → γ → δ) (g : α → β)
    (h' : α → γ) (l : List α) :
    List.zipWith f (l.map g) (l.map h') = l.map fun x => f (g x) (h' x) := by
  induction l with
  | nil => rfl
  | cons x xs ih => simp [ih]

/-- Sum of an affine image. -/
lemma sum_map_affine (l : List ℝ) (s m : ℝ) :
    (l.map fun x => x * s + m).sum = l.sum * s + l.length * m := by
  induction l with
  | nil => simp
  | cons a t ih =>
      simp only [List.map_cons, List.sum_cons, ih, List.length_cons]
      push_cast
      ring

/-- Mean of an affine image of a non-empty list. -/
lemma npMean_map_affine (l : List ℝ) (h : l ≠ []) (s m : ℝ) :
    npMean (l.map fun x => x * s + m) = npMean l * s + m := by
  have hlen : (l.length : ℝ) ≠ 0 := by
    exact_mod_cast Nat.cast_ne_zero.mpr (List.length_pos.mpr h).ne'
  unfold npMean
  rw [List.length_map, sum_map_affine]
  field_simp
  ring

/-- Demeaning a non-empty list gives a zero-mean list. -/
lemma npMean_demean (l : List ℝ) (h : l ≠ []) : npMean (demean l) = 0 := by
  have : demean l = l.map fun x => x * 1 + -npMean l := by
    unfold demean
    exact List.map_congr_left fun a _ => by ring
  rw [this, npMean_map_affine l h]
  ring

/-- Mean of squared deviations is non-negative. -/
lemma npMean_sq_nonneg (l : List ℝ) (c : ℝ) :
    0 ≤ npMean (l.map fun x => (x - c) ^ 2) := by
  apply div_nonneg _ (Nat.cast_nonneg _)
  apply List.sum_nonneg
  intro y hy
  rcases List.mem_map.mp hy with ⟨a, _, rfl⟩
  positivity

/-- Standard deviation is non-negative. -/
lemma npStd_nonneg (l : List ℝ) : 0 ≤ npStd l := Real.sqrt_nonneg _

/-- Standard deviation of an affine image of a non-empty list. -/
lemma npStd_map_affine (l : List ℝ) (h : l ≠ []) (s m : ℝ) :
    npStd (l.map fun x => x * s + m) = |s| * npStd l := by
  unfold npStd
  rw [npMean_map_affine l h s m, List.map_map]
  have h1 : ((fun x => (x - (npMean l * s + m)) ^ 2) ∘ fun x => x * s + m) =
      fun x => (x - npMean l) ^ 2 * s ^ 2 := by
    funext x
    simp only [Function.comp]
    ring
  rw [h1]
  have h2 : (l.map fun x => (x - npMean l) ^ 2 * s ^ 2) =
      (l.map fun x => (x - npMean l) ^ 2).map fun y => y * s ^ 2 + 0 := by
    rw [List.map_map]
    exact List.map_congr_left fun a _ => by simp
  rw [h2, npMean_map_affine _ (by simp [h]) (s ^ 2) 0, add_zero,
    Real.sqrt_mul (npMean_sq_nonneg l (npMean l)), Real.sqrt_sq_eq_abs]
  ring

/-- Demeaning does not change the standard deviation. -/
lemma npStd_demean (l : List ℝ) (h : l ≠ []) : npStd (demean l) = npStd l := by
  unfold npStd
  rw [npMean_demean l h]
  unfold demean
  rw [List.map_map]
  congr 2
  exact List.map_congr_left fun a _ => by simp [Function.comp]

/-- Projection of the forward transform: stored mean. -/
lemma to_osc_mean (hf : HilbertFun) (fs : ℝ) (prices : List ℝ)
    (volumes : Option (List ℝ)) :
    (to_oscillator_representation hf fs prices volumes).mean_price =
      npMean prices := by
  cases volumes <;> rfl

/-- Projection of the forward transform: stored standard deviation. -/
lemma to_osc_std (hf : HilbertFun) (fs : ℝ) (prices : List ℝ)
    (volumes : Option (List ℝ)) :
    (to_oscillator_representation hf fs prices volumes).std_price =
      npStd prices := by
  cases volumes <;> rfl

/-- Reconstruction without resampling: when the rebuilt series already has
the stored length, the `interp1d` branch is not taken. -/
lemma from_osc_prices_no_resample (interp : List ℝ → ℕ → List ℝ)
    (r : PhaseSpaceRepresentation)
    (hlen : (List.zipWith (fun a p => a * Real.cos p) r.amplitudes
      r.phases).length = r.phases.length) :
    (from_oscillator_representation interp r none).prices =
      (List.zipWith (fun a p => a * Real.cos p) r.amplitudes r.phases).map
        fun x => x * r.std_price + r.mean_price := by
  unfold from_oscillator_representation
  dsimp only
  rw [if_neg (by simp [hlen])]

/-- The round trip with the analytic-signal contract `Re ∘ hilbert = id`
rebuilds exactly the demeaned prices scaled by the stored std and shifted
by the stored mean: `amplitude · cos(phase)` recovers the real part of the
analytic signal. -/
lemma roundtrip_prices (hf : HilbertFun) (interp : List ℝ → ℕ → List ℝ)
    (fs : ℝ) (prices : List ℝ)
    (hre : ∀ x, (hf x).map Complex.re = x) (h2 : 2 ≤ prices.length) :
    (from_oscillator_representation interp
        (to_oscillator_representation hf fs prices none) none).prices =
      (demean prices).map fun x => x * npStd prices + npMean prices := by
  have hlen : ∀ x, (hf x).length = x.length := by
    intro x
    have := congrArg List.length (hre x)
    simpa using this
  have hnlt : ¬ prices.length < 2 := not_lt.mpr h2
  have hph : (to_oscillator_representation hf fs prices none).phases =
      (hf (demean prices)).map Complex.arg := by
    rw [to_osc_phases]
    unfold price_to_phase
    rw [if_neg hnlt]
  have ham : (to_oscillator_representation hf fs prices none).amplitudes =
      (hf (demean prices)).map Complex.abs := by
    rw [to_osc_amplitudes_none]
    unfold price_to_amplitude
    rw [if_neg hnlt]
  have hzip : List.zipWith (fun a p => a * Real.cos p)
      (to_oscillator_representation hf fs prices none).amplitudes
      (to_oscillator_representation hf fs prices none).phases =
      demean prices := by
    rw [ham, hph, zipWith_map_same]
    calc (hf (demean prices)).map
          (fun z => Complex.abs z * Real.cos (Complex.arg z)) =
        (hf (demean prices)).map Complex.re :=
          List.map_congr_left fun z _ => Complex.abs_mul_cos_arg z
      _ = demean prices := hre (demean prices)
  rw [from_osc_prices_no_resample _ _ (by
    rw [hzip, hph]
    simp [demean, hlen])]
  rw [hzip, to_osc_std, to_osc_mean]

/-- Moments of the round trip: the mean is preserved exactly, while the
standard deviation comes back squared. -/
lemma roundtrip_moments_aux (hf : HilbertFun)
    (interp : List ℝ → ℕ → List ℝ) (fs : ℝ) (prices : List ℝ)
    (hre : ∀ x, (hf x).map Complex.re = x) (h2 : 2 ≤ prices.length) :
    npMean (from_oscillator_representation interp
        (to_oscillator_representation hf fs prices none) none).prices =
      npMean prices ∧
    npStd (from_oscillator_representation interp
        (to_oscillator_representation hf fs prices none) none).prices =
      npStd prices * npStd prices := by
  have hne : prices ≠ [] := by
    intro hnil
    rw [hnil] at h2
    simp at h2
  have hdne : demean prices ≠ [] := by
    intro hnil
    have := congrArg List.length hnil
    simp [demean] at this
    exact hne this
  rw [roundtrip_prices hf interp fs prices hre h2]
  constructor
  · rw [npMean_map_affine _ hdne, npMean_demean _ hne]
    ring
  · rw [npStd_map_affine _ hdne, npStd_demean _ hne,
      abs_of_nonneg (npStd_nonneg prices)]

/-- The concrete Hilbert stand-in satisfies the analytic-signal contract. -/
lemma hilbertMock_re (x : List ℝ) : (hilbertMock x).map Complex.re = x := by
  unfold hilbertMock
  rw [List.map_map]
  have hco : Complex.re ∘ Complex.ofReal = id :=
    funext fun a => Complex.ofReal_re a
  rw [hco, List.map_id]

/-- C9 (amended): under the analytic-signal contract, the round trip
`fromPhaseSpace(toPhaseSpace(prices))` preserves the mean EXACTLY but
returns a series whose standard deviation is `std(prices)²`, so the
original "std within ~10%" claim holds only when `std(prices)` is within
about 10% of 1 and fails in general. -/
theorem round_trip_moments (hf : HilbertFun)
    (interp : List ℝ → ℕ → List ℝ) (fs : ℝ) (prices : List ℝ)
    (hre : ∀ x, (hf x).map Complex.re = x) (h2 : 2 ≤ prices.length) :
    npMean (from_oscillator_representation interp
        (to_oscillator_representation hf fs prices none) none).prices =
      npMean prices ∧
    npStd (from_oscillator_representation interp
        (to_oscillator_representation hf fs prices none) none).prices =
      npStd prices * npStd prices :=
  roundtrip_moments_aux hf interp fs prices hre h2

/-- Witness for C9 (amended). -/
theorem round_trip_moments_witness :
    npMean (from_oscillator_representation interpMock
        (to_oscillator_representation hilbertMock 1 [0, 10] none)
        none).prices = npMean [(0 : ℝ), 10] ∧
    npStd (from_oscillator_representation interpMock
        (to_oscillator_representation hilbertMock 1 [0, 10] none)
        none).prices = npStd [(0 : ℝ), 10] * npStd [(0 : ℝ), 10] :=
  round_trip_moments hilbertMock interpMock 1 [0, 10] hilbertMock_re
    (by simp)

/-- Mean of the concrete two-point price series. -/
lemma npMean_pair : npMean [(0 : ℝ), 10] = 5 := by
  simp [npMean]
  norm_num

/-- Standard deviation of the concrete two-point price series. -/
lemma npStd_pair : npStd [(0 : ℝ), 10] = 5 := by
  unfold npStd
  rw [npMean_pair]
  have h25 : npMean ([(0 : ℝ), 10].map fun x => (x - 5) ^ 2) = 25 := by
    simp [npMean]
    norm_num
  rw [h25, show (25 : ℝ) = 5 ^ 2 by norm_num,
    Real.sqrt_sq (by norm_num : (0 : ℝ) ≤ 5)]

/-- C9 counterexample: at `prices = [0, 10]` (std 5) with a Hilbert
primitive satisfying the analytic-signal contract, the reconstructed
series has standard deviation 25 — a 400% relative error, far outside the
claimed ~10% tolerance. -/
theorem round_trip_std_counterexample :
    (∀ x, (hilbertMock x).map Complex.re = x) ∧
    npStd (from_oscillator_representation interpMock
        (to_oscillator_representation hilbertMock 1 [0, 10] none)
        none).prices = 25 ∧
    npStd [(0 : ℝ), 10] = 5 ∧
    ¬ |(25 : ℝ) - 5| ≤ 0.1 * 5 := by
  refine ⟨hilbertMock_re, ?_, npStd_pair, by norm_num⟩
  rw [(roundtrip_moments_aux hilbertMock interpMock 1 [0, 10] hilbertMock_re
    (by simp)).2, npStd_pair]
  norm_num

/-- C10: calling `analyze` on a non-empty primary signal with the
reference signal omitted (`None`) uses the primary signal as its own
reference, so the `plv` field of the returned metrics is exactly `1.0`
(for every length-preserving behaviour of the Hilbert primitive). -/
theorem analyze_default_reference_plv_one (hf : HilbertFun)
    (welch : WelchFun) (fft : FftFun) (fs : ℝ) (primary : List ℝ)
    (hlen : ∀ x, (hf x).length = x.length) (hne : primary ≠ []) :
    ∃ m, analyze hf welch fft fs primary none none = Except.ok m ∧
      m.plv = 1 := by
  have hpne : (hf (demean primary)).map Complex.arg ≠ [] := by
    intro hnil
    have := congrArg List.length hnil
    simp [hlen, demean] at this
    exact hne this
  have hplv := plv_self ((hf (demean primary)).map Complex.arg) hpne
  rcases fbc_ok welch fs primary primary rfl with ⟨l, hl⟩
  unfold analyze
  simp only [Option.getD_none]
  rw [hplv, hl]
  exact ⟨_, rfl, rfl⟩

/-- Witness for C10. -/
theorem analyze_default_reference_plv_one_witness :
    ∃ m, analyze hilbertMock welchMock fftMock 1 [1] none none =
        Except.ok m ∧ m.plv = 1 :=
  analyze_default_reference_plv_one hilbertMock welchMock fftMock 1 [1]
    (fun x => by simp [hilbertMock]) (by simp)

end





